import Mathlib

/-!
Verification of the approval-state logic of `marge/approvals.py`.

The Python module computes the approval state of a GitLab merge request:
on GitLab EE it trusts the native approvals endpoint, on GitLab CE it
emulates approvals from a CODEOWNERS file plus thumbs-up award emoji.
Every definition below is a shallow embedding of a function of that file
(or of the Python standard-library routine it calls); the theorems settle
the frozen claims about the module.
-/

namespace Marge

/-! ## Basic data shapes

The JSON shapes consumed by the module (section 6 of the design):
award-emoji entries are `{name, user: {username, id}}`, change entries
carry `new_path`, and `_info` is a string-keyed dictionary. -/

/-- The `user` object inside an award-emoji entry: `{username, id}`. -/
structure RUser where
  username : String
  id : Nat
deriving DecidableEq, Repr

/-- An award-emoji entry as used by `get_approvers_ce`: `{name, user}`. -/
structure Reaction where
  name : String
  user : RUser
deriving DecidableEq, Repr

/-- Values stored in the `_info` dictionary.  `strSet` models a Python
`set` of strings (stored by `codeowners=codeowners` on the tally branch),
`strList` a Python list of strings (stored by `codeowners=[]` on the
short-circuit branches). -/
inductive Val where
  | int (n : Int)
  | str (s : String)
  | strList (l : List String)
  | strSet (s : Finset String)
  | reactionList (l : List Reaction)
deriving DecidableEq

/-- A Python dictionary with string keys, modelled as an association list;
only its lookup behaviour is relevant to the module. -/
abbrev Dict := List (String × Val)

/-- `d[k]` as a total lookup: `none` models a `KeyError`. -/
def dictGet (d : Dict) (k : String) : Option Val :=
  (List.find? (fun p => p.1 == k) d).map Prod.snd

/-- `k in d`. -/
def dictContains (d : Dict) (k : String) : Bool :=
  d.any (fun p => p.1 == k)

/-- `dict(d, k=v)`: a dictionary equal to `d` except that `k` now maps
to `v`.  The new binding is put in front so that `dictGet` sees it first. -/
def dictInsert (d : Dict) (k : String) (v : Val) : Dict :=
  (k, v) :: d

/-! ## Host version and endpoint URLs (lines 13-19 and 135-141)

`self.id`, `self.iid` and `self.project_id` are supplied by the
`gitlab.Resource` base class from the `info` mapping; they are the
`MergeRequestRef` of the design (`id` is the legacy numeric identifier). -/

/-- A GitLab release triple, compared lexicographically like a Python
tuple. -/
abbrev Ver := Nat × Nat × Nat

/-- `release >= (x, y, z)` on Python tuples (lexicographic). -/
def verGE (v w : Ver) : Bool :=
  decide (w.1 < v.1 ∨ (w.1 = v.1 ∧ (w.2.1 < v.2.1 ∨ (w.2.1 = v.2.1 ∧ w.2.2 ≤ v.2.2))))

/-- The identifiers of the merge request used in URL construction. -/
structure MRRef where
  project_id : Nat
  iid : Nat
  id : Nat
deriving DecidableEq, Repr

/-- `'/projects/{pid}/merge_requests/{mid}' + suffix`, the shape shared by
every endpoint the module builds. -/
def mrPath (pid mid : Nat) (suffix : String) : String :=
  "/projects/" ++ toString pid ++ "/merge_requests/" ++ toString mid ++ suffix

/-- `approver_url` of `refetch_info` (lines 14-19): `iid` at or above
release `(9, 2, 2)`, the legacy `id` below it. -/
def approverUrlFor (ref : MRRef) (rel : Ver) : String :=
  if verGE rel (9, 2, 2) then mrPath ref.project_id ref.iid "/approvals"
  else mrPath ref.project_id ref.id "/approvals"

/-- `changes_url` of `get_changes_ce` (lines 66-68): always built from
`iid`. -/
def changesUrlFor (ref : MRRef) : String :=
  mrPath ref.project_id ref.iid "/changes"

/-- `emoji_url` of `get_awards_ce` (lines 72-74): always built from
`iid`. -/
def awardsUrlFor (ref : MRRef) : String :=
  mrPath ref.project_id ref.iid "/award_emoji"

/-- `approve_url` of `reapprove` (lines 135-141): `iid` at or above
release `(9, 2, 2)`, the legacy `id` below it. -/
def approveUrlFor (ref : MRRef) (rel : Ver) : String :=
  if verGE rel (9, 2, 2) then mrPath ref.project_id ref.iid "/approve"
  else mrPath ref.project_id ref.id "/approve"

/-! ## `fnmatch.fnmatch` (Python standard library)

`determine_responsible_owners` (line 61) matches `change['new_path']`
against each glob with `fnmatch.fnmatch(name, pattern)`.  On a POSIX
system `normcase` is the identity, so this is a whole-string match of the
translated pattern: `*` matches any run of characters (`/` included, the
translation is `re.DOTALL`), `?` one character, `[...]`/`[!...]` a
character class (first `]` after the optional `!` is a literal member; an
unclosed `[` is a literal).  The recursion below implements exactly that
semantics, with a fuel argument that strictly exceeds the number of steps
any derivation can take (every recursive call shrinks `|pattern| + |name|`
by at least one, and the fuel starts above that sum). -/

/-- Membership of `c` in the body of a character class, with `lo-hi`
ranges. -/
def classMatch (c : Char) : List Char → Bool
  | [] => false
  | lo :: '-' :: hi :: rest => (lo ≤ c && c ≤ hi) || classMatch c rest
  | x :: rest => (c == x) || classMatch c rest

/-- Split a pattern tail at the first `]`; `none` when the class is never
closed. -/
def splitAtClose : List Char → Option (List Char × List Char)
  | [] => none
  | ']' :: rest => some ([], rest)
  | c :: rest => (splitAtClose rest).map (fun p => (c :: p.1, p.2))

/-- Like `splitAtClose`, but a `]` in first position is a literal member
of the class. -/
def splitClass : List Char → Option (List Char × List Char)
  | ']' :: rest => (splitAtClose rest).map (fun p => (']' :: p.1, p.2))
  | l => splitAtClose l

/-- Parse the pattern tail after `[` into (negated?, class body, rest);
`none` means the `[` is a literal. -/
def parseBracket : List Char → Option (Bool × List Char × List Char)
  | '!' :: rest => (splitClass rest).map (fun p => (true, p.1, p.2))
  | l => (splitClass l).map (fun p => (false, p.1, p.2))

/-- Core matcher: does `name` match the whole of `pattern`?  Arguments
are fuel, pattern, name. -/
def fnmatchFuel : Nat → List Char → List Char → Bool
  | 0, _, _ => false
  | _ + 1, [], s => s.isEmpty
  | fuel + 1, p :: ps, s =>
    if p == '*' then
      fnmatchFuel fuel ps s ||
        (match s with
         | [] => false
         | _ :: s2 => fnmatchFuel fuel (p :: ps) s2)
    else if p == '?' then
      (match s with
       | [] => false
       | _ :: s2 => fnmatchFuel fuel ps s2)
    else if p == '[' then
      (match parseBracket ps with
       | none =>
         (match s with
          | [] => false
          | c :: s2 => (c == '[') && fnmatchFuel fuel ps s2)
       | some (neg, cls, rest) =>
         (match s with
          | [] => false
          | c :: s2 => (classMatch c cls != neg) && fnmatchFuel fuel rest s2))
    else
      (match s with
       | [] => false
       | c :: s2 => (c == p) && fnmatchFuel fuel ps s2)

/-- `fnmatch.fnmatch(name, pat)` on POSIX. -/
def fnmatchStr (name pat : String) : Bool :=
  fnmatchFuel (pat.data.length + name.data.length + 1) pat.data name.data

/-! ## `shlex.split` (Python standard library)

`get_codeowners_ce` (line 86) tokenizes each significant line with
`shlex.split`, i.e. POSIX mode with whitespace splitting and no comment
handling: whitespace (space, tab, CR, LF) separates tokens; `'...'`
quotes literally; `"..."` quotes with `\` escaping only `"` and `\`
inside; outside quotes `\` escapes the next character.  A quoted empty
string yields an empty token.  An unterminated quote or a trailing
escape raises `ValueError`, modelled as `none`. -/

/-- Lexer states: outside quotes, in `'...'`, in `"..."`, after `\`
outside quotes, after `\` inside `"..."`. -/
inductive ShState where
  | normal | single | double | escN | escD
deriving DecidableEq, Repr

/-- The characters of `shlex.whitespace`. -/
def isShWhitespace (c : Char) : Bool :=
  c == ' ' || c == '\t' || c == '\r' || c == '\n'

/-- State machine of `shlex` in POSIX whitespace-split mode.  `tok` is
the current token reversed, `quoted` records whether the token saw a
quote (so that `''` emits an empty token), `acc` the emitted tokens
reversed. -/
def shlexAux : List Char → ShState → List Char → Bool → List String → Option (List String)
  | [], .normal, tok, quoted, acc =>
    if tok.isEmpty && !quoted then some acc.reverse
    else some (String.mk tok.reverse :: acc).reverse
  | [], _, _, _, _ => none
  | c :: rest, .normal, tok, quoted, acc =>
    if isShWhitespace c then
      if tok.isEmpty && !quoted then shlexAux rest .normal [] false acc
      else shlexAux rest .normal [] false (String.mk tok.reverse :: acc)
    else if c == '\'' then shlexAux rest .single tok true acc
    else if c == '"' then shlexAux rest .double tok true acc
    else if c == '\\' then shlexAux rest .escN tok quoted acc
    else shlexAux rest .normal (c :: tok) quoted acc
  | c :: rest, .single, tok, quoted, acc =>
    if c == '\'' then shlexAux rest .normal tok quoted acc
    else shlexAux rest .single (c :: tok) quoted acc
  | c :: rest, .double, tok, quoted, acc =>
    if c == '"' then shlexAux rest .normal tok quoted acc
    else if c == '\\' then shlexAux rest .escD tok quoted acc
    else shlexAux rest .double (c :: tok) quoted acc
  | c :: rest, .escN, tok, quoted, acc => shlexAux rest .normal (c :: tok) quoted acc
  | c :: rest, .escD, tok, quoted, acc =>
    if c == '"' || c == '\\' then shlexAux rest .double (c :: tok) quoted acc
    else shlexAux rest .double (c :: '\\' :: tok) quoted acc

/-- `shlex.split(s)`. -/
def shlexSplit (s : String) : Option (List String) :=
  shlexAux s.data .normal [] false []

/-! ## `str.splitlines` and `str.strip('@')` (Python standard library) -/

/-- `str.splitlines` on the common line boundaries `\n`, `\r\n`, `\r`
(a CODEOWNERS file does not contain the exotic unicode boundaries).  A
trailing boundary does not produce a final empty line. -/
def splitlinesAux : List Char → List Char → List String → List String
  | [], cur, acc =>
    if cur.isEmpty then acc.reverse else (String.mk cur.reverse :: acc).reverse
  | '\r' :: '\n' :: rest, cur, acc => splitlinesAux rest [] (String.mk cur.reverse :: acc)
  | '\n' :: rest, cur, acc => splitlinesAux rest [] (String.mk cur.reverse :: acc)
  | '\r' :: rest, cur, acc => splitlinesAux rest [] (String.mk cur.reverse :: acc)
  | c :: rest, cur, acc => splitlinesAux rest (c :: cur) acc

/-- `content.splitlines()`. -/
def pySplitlines (s : String) : List String :=
  splitlinesAux s.data [] []

/-- `user.strip('@')` on the character list: remove every leading and
every trailing `'@'`. -/
def stripAtL (cs : List Char) : List Char :=
  ((cs.dropWhile (fun c => c == '@')).reverse.dropWhile (fun c => c == '@')).reverse

/-- `user.strip('@')` (line 91): strips all leading and trailing `@`
characters. -/
def stripAt (s : String) : String :=
  String.mk (stripAtL s.data)

/-! ## `get_codeowners_ce` (lines 77-93) -/

/-- The `owner_globs` dictionary: glob pattern to set of owner names,
in insertion order. -/
abbrev GlobMap := List (String × Finset String)

/-- `owner_globs[g]` as an optional lookup (`g in owner_globs` is its
`isSome`). -/
def globMapGet (m : GlobMap) (g : String) : Option (Finset String) :=
  (List.find? (fun p => p.1 == g) m).map Prod.snd

/-- `owner_globs.setdefault(g, set([]))`: create an empty owner set for
`g` if the key is new. -/
def globMapSetdefault (m : GlobMap) (g : String) : GlobMap :=
  if (globMapGet m g).isSome then m else m ++ [(g, ∅)]

/-- `owner_globs[g].add(u)` for a key already present. -/
def globMapAddUser (m : GlobMap) (g u : String) : GlobMap :=
  m.map (fun p => if p.1 == g then (p.1, insert u p.2) else p)

/-- The loop body of `get_codeowners_ce` for one significant line:
`shlex`-split, pop the glob, create its owner set, add every remaining
token stripped of `@`.  `none` models the `ValueError` of `shlex.split`
or the `IndexError` of `elements.pop(0)` on a whitespace-only line. -/
def processLine (m : GlobMap) (line : String) : Option GlobMap :=
  match shlexSplit line with
  | none => none
  | some [] => none
  | some (glob :: users) =>
    some (users.foldl (fun acc u => globMapAddUser acc glob (stripAt u)) (globMapSetdefault m glob))

/-- `s.startswith(p)` on the character lists. -/
def pyStartswith (s p : String) : Bool :=
  p.data.isPrefixOf s.data

/-- Line filter of line 85: non-empty, not starting with a space, not
starting with `#`. -/
def significantLine (l : String) : Bool :=
  !(l == "") && !(pyStartswith l " ") && !(pyStartswith l "#")

/-- `get_codeowners_ce()`: `file` is the `repo_file_get` result, `none`
when the CODEOWNERS file is absent (which yields an empty mapping, not an
error). -/
def getCodeownersCE (file : Option String) : Option GlobMap :=
  match file with
  | none => some []
  | some content =>
    (pySplitlines content).foldlM
      (fun m line => if significantLine line then processLine m line else some m) []

/-! ## `determine_responsible_owners` (lines 48-64) -/

/-- One entry of `changes['changes']`; `new_path` is `none` when the
`'new_path'` key is missing. -/
structure Change where
  new_path : Option String
deriving DecidableEq, Repr

/-- The `/changes` payload; `changes = none` models a payload without a
`'changes'` key. -/
structure ChangesPayload where
  changes : Option (List Change)
deriving DecidableEq, Repr

/-- `determine_responsible_owners(owners_glob, changes)`: start from the
owners of the global `'*'` glob, return them alone when the payload has
no `'changes'` key, otherwise union in the owners of every glob matched
by the `new_path` of any change (full cross product, `fnmatch`
semantics). -/
def determineResponsibleOwners (ownersGlob : GlobMap) (changes : ChangesPayload) : Finset String :=
  let owners : Finset String :=
    match globMapGet ownersGlob "*" with
    | some users => users
    | none => ∅
  match changes.changes with
  | none => owners
  | some chs =>
    chs.foldl
      (fun acc change =>
        ownersGlob.foldl
          (fun acc2 gu =>
            match change.new_path with
            | some p => if fnmatchStr p gu.1 then acc2 ∪ gu.2 else acc2
            | none => acc2)
          acc)
      owners

/-! ## `get_approvers_ce` (lines 26-46) -/

/-- Result of the emulated (CE) computation: the new `_info` dictionary
plus which of the two GET endpoints (`/changes`, `/award_emoji`) were
actually called on the way. -/
structure CEOutcome where
  info : Dict
  fetchedChanges : Bool
  fetchedAwards : Bool
deriving DecidableEq

/-- `dict(self._info, approvals_left=0, approved_by=[], codeowners=[])`,
the short-circuit result of lines 32 and 38. -/
def shortCircuitInfo (prior : Dict) : Dict :=
  dictInsert (dictInsert (dictInsert prior "approvals_left" (.int 0))
    "approved_by" (.reactionList [])) "codeowners" (.strList [])

/-- The qualifying up-votes of line 42:
`[e for e in awards if e['name'] == 'thumbsup' and e['user']['username'] in codeowners]`. -/
def upVotesOf (awards : List Reaction) (codeowners : Finset String) : List Reaction :=
  awards.filter (fun e => e.name == "thumbsup" && decide (e.user.username ∈ codeowners))

/-- `dict(self._info, approvals_left=max(len(codeowners) - len(up_votes), 0),
approved_by=up_votes, codeowners=codeowners)`, the tally result of lines
42-46. -/
def tallyInfo (prior : Dict) (codeowners : Finset String) (awards : List Reaction) : Dict :=
  dictInsert (dictInsert (dictInsert prior "approvals_left"
      (.int (max ((codeowners.card : Int) - (upVotesOf awards codeowners).length) 0)))
    "approved_by" (.reactionList (upVotesOf awards codeowners)))
    "codeowners" (.strSet codeowners)

/-- `get_approvers_ce()`.  Inputs: the prior `_info`, the CODEOWNERS
file content (`none` when absent), the `/changes` payload and the
`/award_emoji` list the API would return.  `none` models an uncaught
exception from `get_codeowners_ce`. -/
def getApproversCE (prior : Dict) (file : Option String) (ch : ChangesPayload)
    (awards : List Reaction) : Option CEOutcome :=
  match getCodeownersCE file with
  | none => none
  | some ownerGlobs =>
    if ownerGlobs.isEmpty then some ⟨shortCircuitInfo prior, false, false⟩
    else
      let codeowners := determineResponsibleOwners ownerGlobs ch
      if codeowners = ∅ then some ⟨shortCircuitInfo prior, true, false⟩
      else some ⟨tallyInfo prior codeowners awards, true, true⟩

/-! ## `refetch_info` (lines 13-24), `codeowners` (lines 120-126),
`reapprove` (lines 128-145) -/

/-- What the host API would answer to each request `refetch_info` /
`get_approvers_ce` may issue. -/
structure Api where
  release : Ver
  is_ee : Bool
  nativeApprovals : Dict
  changesPayload : ChangesPayload
  awards : List Reaction
  codeownersFile : Option String
deriving DecidableEq

/-- `refetch_info()`: the `approver_url` construction is modelled by
`approverUrlFor`; on EE the native response is stored verbatim as
`_info`, otherwise `_info` becomes the result of `get_approvers_ce`. -/
def refetchInfo (prior : Dict) (api : Api) : Option Dict :=
  if api.is_ee then some api.nativeApprovals
  else (getApproversCE prior api.codeownersFile api.changesPayload api.awards).map
    (fun o => o.info)

/-- The `codeowners` property (lines 120-126): `self.info['codeowners']`
when `'approvers' in self.info`, else `[]`.  `none` models the
`KeyError` when `'codeowners'` is absent. -/
def codeownersProp (info : Dict) : Option Val :=
  if dictContains info "approvers" then dictGet info "codeowners"
  else some (.strList [])

/-- The `approver_ids` property (lines 115-118):
`[who['user']['id'] for who in self.info['approved_by']]`; `none` models
the `KeyError`/`TypeError` when `'approved_by'` is absent or not a
reaction list. -/
def approverIdsOf (info : Dict) : Option (List Nat) :=
  match dictGet info "approved_by" with
  | some (.reactionList rs) => some (rs.map (fun r => r.user.id))
  | _ => none

/-- One `POST(approve_url)` issued with `sudo=uid`; `sudoUid` is the
value of the `sudo` keyword argument (the impersonated user id). -/
structure ApproveCall where
  url : String
  sudoUid : Nat
deriving DecidableEq, Repr

/-- `reapprove()`: builds the version-correct approve URL; on EE it
issues one impersonated POST per recorded approver id, otherwise it
issues nothing. -/
def reapprove (ref : MRRef) (info : Dict) (rel : Ver) (ee : Bool) :
    Option (List ApproveCall) :=
  let url := approveUrlFor ref rel
  if ee then (approverIdsOf info).map (fun ids => ids.map (fun uid => ⟨url, uid⟩))
  else some []

/-- Globs made of ordinary characters only: no `*`, `?` or `[`. -/
def noMetaGlob (g : List Char) : Bool :=
  g.all (fun c => !(c == '*') && !(c == '?') && !(c == '['))

/-! ## Dictionary lemmas -/

lemma dictGet_insert_self (d : Dict) (k : String) (v : Val) :
    dictGet (dictInsert d k v) k = some v := by
  simp [dictGet, dictInsert, List.find?]

lemma dictGet_insert_ne (d : Dict) (k k' : String) (v : Val) (h : k ≠ k') :
    dictGet (dictInsert d k v) k' = dictGet d k' := by
  have hb : (k == k') = false := beq_eq_false_iff_ne.mpr h
  simp [dictGet, dictInsert, List.find?, hb]

lemma dictContains_insert_ne (d : Dict) (k k' : String) (v : Val) (h : k ≠ k') :
    dictContains (dictInsert d k v) k' = dictContains d k' := by
  have hb : (k == k') = false := beq_eq_false_iff_ne.mpr h
  simp [dictContains, dictInsert, hb]

lemma dictGet_eq_none_of_contains_false (d : Dict) (k : String)
    (h : dictContains d k = false) : dictGet d k = none := by
  induction d with
  | nil => rfl
  | cons p t ih =>
    simp only [dictContains, List.any_cons, Bool.or_eq_false_iff] at h
    obtain ⟨h1, h2⟩ := h
    simp only [dictGet, List.find?, h1]
    exact ih h2

/-- Looking up `approvals_left` in `dict(prior, approvals_left=a,
approved_by=b, codeowners=c)`. -/
lemma dictGet_info3_left (prior : Dict) (a b c : Val) :
    dictGet (dictInsert (dictInsert (dictInsert prior "approvals_left" a)
      "approved_by" b) "codeowners" c) "approvals_left" = some a := by
  rw [dictGet_insert_ne _ _ _ _ (by decide), dictGet_insert_ne _ _ _ _ (by decide),
    dictGet_insert_self]

/-- Looking up `approved_by` in the same dictionary. -/
lemma dictGet_info3_by (prior : Dict) (a b c : Val) :
    dictGet (dictInsert (dictInsert (dictInsert prior "approvals_left" a)
      "approved_by" b) "codeowners" c) "approved_by" = some b := by
  rw [dictGet_insert_ne _ _ _ _ (by decide), dictGet_insert_self]

/-- Looking up `codeowners` in the same dictionary. -/
lemma dictGet_info3_co (prior : Dict) (a b c : Val) :
    dictGet (dictInsert (dictInsert (dictInsert prior "approvals_left" a)
      "approved_by" b) "codeowners" c) "codeowners" = some c := by
  rw [dictGet_insert_self]

/-- The three keys written by `get_approvers_ce` do not add an
`approvers` key. -/
lemma dictContains_info3_approvers (prior : Dict) (a b c : Val) :
    dictContains (dictInsert (dictInsert (dictInsert prior "approvals_left" a)
      "approved_by" b) "codeowners" c) "approvers" = dictContains prior "approvers" := by
  rw [dictContains_insert_ne _ _ _ _ (by decide), dictContains_insert_ne _ _ _ _ (by decide),
    dictContains_insert_ne _ _ _ _ (by decide)]

/-! ## Glob-map lemmas -/

/-- The per-entry update of `globMapAddUser` never changes an entry's
key. -/
lemma globMapAddUser_key (g u : String) (p : String × Finset String) :
    ((if p.1 == g then (p.1, insert u p.2) else p) : String × Finset String).1 = p.1 := by
  cases hb : (p.1 == g) <;> simp [hb]

lemma globMapGet_setdefault_self (m : GlobMap) (g : String) :
    globMapGet (globMapSetdefault m g) g = some ((globMapGet m g).getD ∅) := by
  unfold globMapSetdefault
  cases h : globMapGet m g with
  | some s => simp [h]
  | none =>
    have hf : List.find? (fun p => p.1 == g) m = none := by
      cases hf : List.find? (fun p => p.1 == g) m with
      | none => rfl
      | some p => rw [globMapGet, hf] at h; simp at h
    simp [h, globMapGet, List.find?_append, hf, List.find?]

lemma globMapGet_setdefault_ne (m : GlobMap) (g g' : String) (h : g' ≠ g) :
    globMapGet (globMapSetdefault m g) g' = globMapGet m g' := by
  unfold globMapSetdefault
  cases hs : (globMapGet m g).isSome with
  | true => rfl
  | false =>
    have hb : (g == g') = false := beq_eq_false_iff_ne.mpr (Ne.symm h)
    simp [globMapGet, List.find?_append, List.find?, hb, Option.or_none]

lemma globMapGet_addUser_self (m : GlobMap) (g u : String) (s : Finset String)
    (h : globMapGet m g = some s) :
    globMapGet (globMapAddUser m g u) g = some (insert u s) := by
  obtain ⟨p, hp, hps⟩ : ∃ p, List.find? (fun p => p.1 == g) m = some p ∧ p.2 = s := by
    cases hf : List.find? (fun p => p.1 == g) m with
    | none => rw [globMapGet, hf] at h; simp at h
    | some p =>
      rw [globMapGet, hf] at h
      exact ⟨p, rfl, by simpa using h⟩
  have hpre : (fun q : String × Finset String => q.1 == g) ∘
      (fun q : String × Finset String => if q.1 == g then (q.1, insert u q.2) else q) =
      (fun q : String × Finset String => q.1 == g) := by
    funext q
    simp only [Function.comp_apply]
    rw [globMapAddUser_key]
  have hpg : (p.1 == g) = true := by
    have h' := List.find?_some hp
    simpa using h'
  rw [globMapGet, globMapAddUser, List.find?_map, hpre, hp]
  have he : p.1 = g := eq_of_beq hpg
  simp [hpg, hps, he]

lemma globMapGet_addUser_ne (m : GlobMap) (g g' u : String) (h : g' ≠ g) :
    globMapGet (globMapAddUser m g u) g' = globMapGet m g' := by
  have hpre : (fun q : String × Finset String => q.1 == g') ∘
      (fun q : String × Finset String => if q.1 == g then (q.1, insert u q.2) else q) =
      (fun q : String × Finset String => q.1 == g') := by
    funext q
    simp only [Function.comp_apply]
    rw [globMapAddUser_key]
  rw [globMapGet, globMapAddUser, List.find?_map, hpre]
  cases hf : List.find? (fun q => q.1 == g') m with
  | none => simp [globMapGet, hf]
  | some p =>
    have hpg : (p.1 == g') = true := by
      have h' := List.find?_some hf
      simpa using h'
    have hpgne : p.1 ≠ g := fun e => h ((eq_of_beq hpg).symm.trans e)
    simp [globMapGet, hf, hpgne]

lemma globMapGet_fold_users (g : String) (users : List String) :
    ∀ (m : GlobMap) (s : Finset String), globMapGet m g = some s →
    globMapGet (users.foldl (fun acc u => globMapAddUser acc g (stripAt u)) m) g =
      some (s ∪ (users.map stripAt).toFinset) := by
  induction users with
  | nil => intro m s h; simpa using h
  | cons u us ih =>
    intro m s h
    rw [List.foldl_cons]
    have h1 := globMapGet_addUser_self m g (stripAt u) s h
    rw [ih _ _ h1, List.map_cons, List.toFinset_cons, Finset.insert_union,
      Finset.union_insert]

lemma globMapGet_fold_users_ne (g g' : String) (h : g' ≠ g) (users : List String) :
    ∀ m : GlobMap,
    globMapGet (users.foldl (fun acc u => globMapAddUser acc g (stripAt u)) m) g' =
      globMapGet m g' := by
  induction users with
  | nil => intro m; rfl
  | cons u us ih =>
    intro m
    rw [List.foldl_cons, ih, globMapGet_addUser_ne _ _ _ _ h]

/-! ## Fold-monotonicity lemmas (for owner resolution) -/

lemma subset_foldl_of_step {β : Type} (f : Finset String → β → Finset String)
    (h : ∀ a b, a ⊆ f a b) (l : List β) : ∀ a, a ⊆ l.foldl f a := by
  induction l with
  | nil => intro a; exact Finset.Subset.refl a
  | cons b t ih => intro a; exact (h a b).trans (ih (f a b))

/-! ## `strip('@')` lemmas -/

lemma stripAtL_cons_at (cs : List Char) : stripAtL ('@' :: cs) = stripAtL cs := by
  simp [stripAtL, List.dropWhile]

lemma stripAtL_append_at (cs : List Char) : stripAtL (cs ++ ['@']) = stripAtL cs := by
  unfold stripAtL
  rw [List.dropWhile_append]
  cases hE : (cs.dropWhile (fun c => c == '@')).isEmpty with
  | true =>
    have : cs.dropWhile (fun c => c == '@') = [] := by simpa using hE
    simp [hE, this, List.dropWhile]
  | false =>
    simp only [hE, Bool.false_eq_true, if_false, List.reverse_append, List.reverse_cons,
      List.reverse_nil, List.nil_append, List.singleton_append, List.dropWhile]
    rfl

lemma stripAtL_of_clean_ends (cs : List Char) (h1 : cs.head? ≠ some '@')
    (h2 : cs.getLast? ≠ some '@') : stripAtL cs = cs := by
  unfold stripAtL
  have hd : cs.dropWhile (fun c => c == '@') = cs := by
    cases cs with
    | nil => rfl
    | cons a t =>
      have ha : (a == '@') = false := by
        apply beq_eq_false_iff_ne.mpr
        intro e
        exact h1 (by simp [e])
      simp [List.dropWhile, ha]
  rw [hd]
  have hr : cs.reverse.dropWhile (fun c => c == '@') = cs.reverse := by
    cases hrev : cs.reverse with
    | nil => rfl
    | cons a t =>
      have : cs.getLast? = some a := by
        rw [← List.head?_reverse, hrev]; rfl
      have ha : (a == '@') = false := by
        apply beq_eq_false_iff_ne.mpr
        intro e
        exact h2 (by rw [this, e])
      simp [List.dropWhile, ha]
  rw [hr, List.reverse_reverse]

/-! ## `fnmatch` reflexivity on meta-free globs -/

lemma fnmatchFuel_self (g : List Char) :
    ∀ fuel : Nat, noMetaGlob g = true → g.length < fuel → fnmatchFuel fuel g g = true := by
  induction g with
  | nil =>
    intro fuel _ hf
    match fuel, hf with
    | f + 1, _ => rfl
  | cons c t ih =>
    intro fuel hm hf
    match fuel, hf with
    | f + 1, hf =>
      simp only [noMetaGlob, List.all_cons, Bool.and_eq_true, Bool.not_eq_true'] at hm
      obtain ⟨⟨⟨h1, h2⟩, h3⟩, ht⟩ := hm
      unfold fnmatchFuel
      simp only [h1, h2, h3, Bool.false_eq_true, if_false, beq_self_eq_true,
        Bool.true_and]
      exact ih f (by simpa [noMetaGlob] using ht) (Nat.lt_of_succ_lt_succ hf)

/-! ## Branch reductions of `get_approvers_ce` -/

/-- Line 30-32: no owner rules at all. -/
lemma getApproversCE_sc_empty (prior : Dict) (file : Option String) (ch : ChangesPayload)
    (aw : List Reaction) (hm : getCodeownersCE file = some []) :
    getApproversCE prior file ch aw = some ⟨shortCircuitInfo prior, false, false⟩ := by
  unfold getApproversCE
  rw [hm]
  rfl

/-- Line 36-38: rules exist but no code owner matches. -/
lemma getApproversCE_sc_noowners (prior : Dict) (file : Option String) (ch : ChangesPayload)
    (aw : List Reaction) (m : GlobMap) (hm : getCodeownersCE file = some m)
    (hne : m.isEmpty = false) (hco : determineResponsibleOwners m ch = ∅) :
    getApproversCE prior file ch aw = some ⟨shortCircuitInfo prior, true, false⟩ := by
  unfold getApproversCE
  rw [hm]
  show (if m.isEmpty = true then _ else _) = _
  rw [hne]
  simp only [Bool.false_eq_true, if_false]
  rw [if_pos hco]

/-- Lines 40-46: the tally branch. -/
lemma getApproversCE_tally (prior : Dict) (file : Option String) (ch : ChangesPayload)
    (aw : List Reaction) (m : GlobMap) (hm : getCodeownersCE file = some m)
    (hne : m.isEmpty = false) (hco : determineResponsibleOwners m ch ≠ ∅) :
    getApproversCE prior file ch aw =
      some ⟨tallyInfo prior (determineResponsibleOwners m ch) aw, true, true⟩ := by
  unfold getApproversCE
  rw [hm]
  show (if m.isEmpty = true then _ else _) = _
  rw [hne]
  simp only [Bool.false_eq_true, if_false]
  rw [if_neg hco]

/-- Every outcome of `get_approvers_ce` is `dict(prior, ...)` with the
three keys `approvals_left`, `approved_by`, `codeowners` set, so it has
an `approvers` key exactly when the prior `_info` had one. -/
lemma getApproversCE_contains_approvers (prior : Dict) (file : Option String)
    (ch : ChangesPayload) (aw : List Reaction) (out : CEOutcome)
    (h : getApproversCE prior file ch aw = some out) :
    dictContains out.info "approvers" = dictContains prior "approvers" := by
  cases hog : getCodeownersCE file with
  | none => unfold getApproversCE at h; rw [hog] at h; exact absurd h (by simp)
  | some og =>
    cases hE : og.isEmpty with
    | true =>
      have hnil : og = [] := by simpa using hE
      rw [hnil] at hog
      rw [getApproversCE_sc_empty prior file ch aw hog] at h
      obtain rfl : (⟨shortCircuitInfo prior, false, false⟩ : CEOutcome) = out :=
        Option.some.inj h
      exact dictContains_info3_approvers prior _ _ _
    | false =>
      by_cases hco : determineResponsibleOwners og ch = ∅
      · rw [getApproversCE_sc_noowners prior file ch aw og hog hE hco] at h
        obtain rfl : (⟨shortCircuitInfo prior, true, false⟩ : CEOutcome) = out :=
          Option.some.inj h
        exact dictContains_info3_approvers prior _ _ _
      · rw [getApproversCE_tally prior file ch aw og hog hE hco] at h
        obtain rfl : (⟨tallyInfo prior (determineResponsibleOwners og ch) aw,
            true, true⟩ : CEOutcome) = out := Option.some.inj h
        exact dictContains_info3_approvers prior _ _ _

/-! ## Claim C1 -/

/-- C1: on the emulated (CE) path, when owner rules exist and resolve to
a non-empty codeowner set, the stored `approvals_left` equals
`max(len(codeowners) - len(qualifying reactions), 0)` where a reaction
qualifies iff its emoji name is `thumbsup` and its user's username is in
the codeowner set; the count is over raw qualifying reactions (the raw
`filter`'s length, not distinct users), and every `approvals_left` the
emulated path ever stores is non-negative. -/
theorem C1_emulated_approvals_left (prior : Dict) (file : Option String)
    (ch : ChangesPayload) (aw : List Reaction) (m : GlobMap)
    (hm : getCodeownersCE file = some m) (hne : m.isEmpty = false)
    (hco : determineResponsibleOwners m ch ≠ ∅) :
    (∃ out : CEOutcome, getApproversCE prior file ch aw = some out ∧
      dictGet out.info "approvals_left" = some (.int
        (max (((determineResponsibleOwners m ch).card : Int) -
          ((aw.filter (fun e => e.name == "thumbsup" &&
            decide (e.user.username ∈ determineResponsibleOwners m ch))).length : Int)) 0))) ∧
    (∀ (p2 : Dict) (f2 : Option String) (c2 : ChangesPayload) (a2 : List Reaction)
      (o2 : CEOutcome), getApproversCE p2 f2 c2 a2 = some o2 →
      ∃ n : Int, dictGet o2.info "approvals_left" = some (.int n) ∧ 0 ≤ n) := by
  constructor
  · refine ⟨_, getApproversCE_tally prior file ch aw m hm hne hco, ?_⟩
    exact dictGet_info3_left prior _ _ _
  · intro p2 f2 c2 a2 o2 h2
    cases hog : getCodeownersCE f2 with
    | none => unfold getApproversCE at h2; rw [hog] at h2; exact absurd h2 (by simp)
    | some og =>
      cases hE : og.isEmpty with
      | true =>
        have hnil : og = [] := by simpa using hE
        rw [hnil] at hog
        rw [getApproversCE_sc_empty p2 f2 c2 a2 hog] at h2
        obtain rfl := Option.some.inj h2
        exact ⟨0, dictGet_info3_left p2 _ _ _, le_refl 0⟩
      | false =>
        by_cases hco2 : determineResponsibleOwners og c2 = ∅
        · rw [getApproversCE_sc_noowners p2 f2 c2 a2 og hog hE hco2] at h2
          obtain rfl := Option.some.inj h2
          exact ⟨0, dictGet_info3_left p2 _ _ _, le_refl 0⟩
        · rw [getApproversCE_tally p2 f2 c2 a2 og hog hE hco2] at h2
          obtain rfl := Option.some.inj h2
          exact ⟨_, dictGet_info3_left p2 _ _ _, le_max_right _ _⟩

/-- C1 witness: scenario with rule `* alice`, an arbitrary change list
and one qualifying thumbs-up from alice. -/
theorem C1_emulated_approvals_left_wit :
    (∃ out : CEOutcome,
      getApproversCE [] (some "* alice") ⟨none⟩ [⟨"thumbsup", ⟨"alice", 7⟩⟩] = some out ∧
      dictGet out.info "approvals_left" = some (.int
        (max (((determineResponsibleOwners [("*", {"alice"})] ⟨none⟩).card : Int) -
          (([⟨"thumbsup", ⟨"alice", 7⟩⟩].filter
            (fun e : Reaction => e.name == "thumbsup" &&
              decide (e.user.username ∈
                determineResponsibleOwners [("*", {"alice"})] ⟨none⟩))).length : Int)) 0))) ∧
    (∀ (p2 : Dict) (f2 : Option String) (c2 : ChangesPayload) (a2 : List Reaction)
      (o2 : CEOutcome), getApproversCE p2 f2 c2 a2 = some o2 →
      ∃ n : Int, dictGet o2.info "approvals_left" = some (.int n) ∧ 0 ≤ n) :=
  C1_emulated_approvals_left [] (some "* alice") ⟨none⟩ [⟨"thumbsup", ⟨"alice", 7⟩⟩]
    [("*", {"alice"})] (by decide) (by decide) (by decide)

/-! ## Claim C3 -/

/-- C3: on the emulated path, if the CODEOWNERS file is absent or parses
to no rules, or if the resolved owner set is empty, `get_approvers_ce`
short-circuits to a result whose `approvals_left` is `0`, `approved_by`
is `[]` and `codeowners` is `[]`, without fetching the award reactions
(`fetchedAwards = false` in both cases); both are ordinary `some`
results, not errors. -/
theorem C3_short_circuit (prior : Dict) (file : Option String) (ch : ChangesPayload)
    (aw : List Reaction) :
    (getCodeownersCE file = some [] →
      getApproversCE prior file ch aw = some ⟨shortCircuitInfo prior, false, false⟩) ∧
    (∀ m : GlobMap, getCodeownersCE file = some m → m.isEmpty = false →
      determineResponsibleOwners m ch = ∅ →
      getApproversCE prior file ch aw = some ⟨shortCircuitInfo prior, true, false⟩) ∧
    dictGet (shortCircuitInfo prior) "approvals_left" = some (.int 0) ∧
    dictGet (shortCircuitInfo prior) "approved_by" = some (.reactionList []) ∧
    dictGet (shortCircuitInfo prior) "codeowners" = some (.strList []) := by
  refine ⟨fun hm => getApproversCE_sc_empty prior file ch aw hm,
    fun m hm hne hco => getApproversCE_sc_noowners prior file ch aw m hm hne hco,
    ?_, ?_, ?_⟩
  · exact dictGet_info3_left prior _ _ _
  · exact dictGet_info3_by prior _ _ _
  · exact dictGet_info3_co prior _ _ _

/-- C3 witness: absent CODEOWNERS file (Scenario A) with a non-trivial
prior `_info`. -/
theorem C3_short_circuit_wit :
    getApproversCE [("iid", .int 5)] none ⟨some [⟨some "x.py"⟩]⟩
      [⟨"thumbsup", ⟨"alice", 7⟩⟩] =
      some ⟨shortCircuitInfo [("iid", .int 5)], false, false⟩ :=
  (C3_short_circuit [("iid", .int 5)] none ⟨some [⟨some "x.py"⟩]⟩
    [⟨"thumbsup", ⟨"alice", 7⟩⟩]).1 (by decide)

/-! ## Claim C4 -/

/-- C4: when the host edition is enterprise, `refetch_info` stores the
native approvals response verbatim; the emulated computation never runs
(the stored info is the same for every CODEOWNERS file, change payload
and award list); and since the native response carries no `codeowners`
key, the `codeowners` accessor yields an absent (`KeyError`, modelled
`none`) or empty (`[]`) result — independent of any owner file. -/
theorem C4_ee_native_passthrough (prior : Dict) (api : Api)
    (hee : api.is_ee = true)
    (hnc : dictContains api.nativeApprovals "codeowners" = false) :
    refetchInfo prior api = some api.nativeApprovals ∧
    (∀ (f : Option String) (c : ChangesPayload) (a : List Reaction),
      refetchInfo prior { api with codeownersFile := f, changesPayload := c, awards := a } =
        some api.nativeApprovals) ∧
    (codeownersProp api.nativeApprovals = none ∨
      codeownersProp api.nativeApprovals = some (.strList [])) := by
  refine ⟨by simp [refetchInfo, hee], fun f c a => by simp [refetchInfo, hee], ?_⟩
  unfold codeownersProp
  cases ha : dictContains api.nativeApprovals "approvers" with
  | true =>
    left
    simp only [ha, if_true]
    exact dictGet_eq_none_of_contains_false _ _ hnc
  | false => right; simp [ha]

/-- C4 witness: a typical EE native response (with an `approvers` key,
without a `codeowners` key) and a CODEOWNERS file that would have
produced owners on the emulated path. -/
theorem C4_ee_native_passthrough_wit :
    refetchInfo [] ⟨(9, 4, 0), true, [("approvals_left", .int 2), ("approvers", .int 0)],
      ⟨some [⟨some "x.py"⟩]⟩, [⟨"thumbsup", ⟨"alice", 7⟩⟩], some "* alice"⟩ =
      some [("approvals_left", .int 2), ("approvers", .int 0)] ∧
    (∀ (f : Option String) (c : ChangesPayload) (a : List Reaction),
      refetchInfo [] ⟨(9, 4, 0), true, [("approvals_left", .int 2), ("approvers", .int 0)],
        c, a, f⟩ = some [("approvals_left", .int 2), ("approvers", .int 0)]) ∧
    (codeownersProp [("approvals_left", .int 2), ("approvers", .int 0)] = none ∨
      codeownersProp [("approvals_left", .int 2), ("approvers", .int 0)] =
        some (.strList [])) :=
  C4_ee_native_passthrough [] ⟨(9, 4, 0), true,
    [("approvals_left", .int 2), ("approvers", .int 0)],
    ⟨some [⟨some "x.py"⟩]⟩, [⟨"thumbsup", ⟨"alice", 7⟩⟩], some "* alice"⟩
    (by decide) (by decide)

/-! ## Claim C6 -/

/-- C6: for every parsed rule set with a global `*` rule and every
change payload — the empty change list and a payload without a `changes`
key included — the resolved owner set contains the `*` rule's owners;
a payload without a `changes` key yields exactly the global owners (an
ordinary result, not an error). -/
theorem C6_global_owners_superset (m : GlobMap) (gs : Finset String)
    (ch : ChangesPayload) (hg : globMapGet m "*" = some gs) :
    gs ⊆ determineResponsibleOwners m ch ∧
    (ch.changes = none → determineResponsibleOwners m ch = gs) := by
  unfold determineResponsibleOwners
  rw [hg]
  cases hc : ch.changes with
  | none => exact ⟨Finset.Subset.refl gs, fun _ => rfl⟩
  | some chs =>
    refine ⟨?_, fun hn => absurd hn (by simp)⟩
    apply subset_foldl_of_step
    intro a change
    apply subset_foldl_of_step
    intro a2 gu
    cases change.new_path with
    | none => exact Finset.Subset.refl a2
    | some p =>
      by_cases hf : fnmatchStr p gu.1
      · simp only [hf, if_true]
        exact Finset.subset_union_left
      · simp only [hf, Bool.false_eq_true, if_false]
        exact Finset.Subset.refl a2

/-- C6 witness: a `*`-only rule set against an empty change list, a
non-matching change, and a payload without a `changes` key. -/
theorem C6_global_owners_superset_wit :
    ({"alice"} : Finset String) ⊆
      determineResponsibleOwners [("*", {"alice"}), ("*.go", {"carol"})]
        ⟨some [⟨some "x.py"⟩]⟩ ∧
    (({"alice"} : Finset String) ⊆
      determineResponsibleOwners [("*", {"alice"})] ⟨none⟩ ∧
      (ChangesPayload.changes ⟨none⟩ = none →
        determineResponsibleOwners [("*", {"alice"})] ⟨none⟩ = {"alice"})) :=
  ⟨(C6_global_owners_superset [("*", {"alice"}), ("*.go", {"carol"})] {"alice"}
      ⟨some [⟨some "x.py"⟩]⟩ (by decide)).1,
    C6_global_owners_superset [("*", {"alice"})] {"alice"} ⟨none⟩ (by decide)⟩

/-! ## Claim C9 -/

/-- C9: `reapprove` issues approve actions only on the enterprise
edition: there it issues exactly one impersonated POST (with `sudo` set
to the user id) per entry of the recorded `approved_by` list, addressed
to the version-correct approve endpoint; on any other edition it issues
no approve action at all. -/
theorem C9_reapprove_ee_only (ref : MRRef) (info : Dict) (rel : Ver) :
    (reapprove ref info rel false = some []) ∧
    (∀ rs : List Reaction, dictGet info "approved_by" = some (.reactionList rs) →
      reapprove ref info rel true =
        some (rs.map (fun r => ⟨approveUrlFor ref rel, r.user.id⟩))) ∧
    (verGE rel (9, 2, 2) = true →
      approveUrlFor ref rel = mrPath ref.project_id ref.iid "/approve") ∧
    (verGE rel (9, 2, 2) = false →
      approveUrlFor ref rel = mrPath ref.project_id ref.id "/approve") := by
  refine ⟨rfl, ?_, fun hv => by simp [approveUrlFor, hv],
    fun hv => by simp [approveUrlFor, hv]⟩
  intro rs h
  unfold reapprove approverIdsOf
  rw [h]
  simp [List.map_map]

/-- C9 witness: one recorded approver, host below the version threshold
(so the legacy-id endpoint is used), both editions. -/
theorem C9_reapprove_ee_only_wit :
    reapprove ⟨1, 2, 3⟩ [("approved_by", .reactionList [⟨"thumbsup", ⟨"alice", 7⟩⟩])]
      (9, 2, 1) false = some [] ∧
    reapprove ⟨1, 2, 3⟩ [("approved_by", .reactionList [⟨"thumbsup", ⟨"alice", 7⟩⟩])]
      (9, 2, 1) true =
      some ([⟨"thumbsup", ⟨"alice", 7⟩⟩].map
        (fun r : Reaction => ⟨approveUrlFor ⟨1, 2, 3⟩ (9, 2, 1), r.user.id⟩)) ∧
    approveUrlFor ⟨1, 2, 3⟩ (9, 2, 1) = mrPath 1 3 "/approve" :=
  ⟨(C9_reapprove_ee_only ⟨1, 2, 3⟩
      [("approved_by", .reactionList [⟨"thumbsup", ⟨"alice", 7⟩⟩])] (9, 2, 1)).1,
    (C9_reapprove_ee_only ⟨1, 2, 3⟩
      [("approved_by", .reactionList [⟨"thumbsup", ⟨"alice", 7⟩⟩])] (9, 2, 1)).2.1
      [⟨"thumbsup", ⟨"alice", 7⟩⟩] (by decide),
    (C9_reapprove_ee_only ⟨1, 2, 3⟩
      [("approved_by", .reactionList [⟨"thumbsup", ⟨"alice", 7⟩⟩])] (9, 2, 1)).2.2.2
      (by decide)⟩

/-! ## Claim C10 -/

/-- C10: the `codeowners` accessor returns the stored `codeowners` value
only when the key `approvers` is present in the info mapping, and `[]`
otherwise; after any emulated refetch over a prior info without an
`approvers` key — in particular one that stored a non-empty codeowner
set — the accessor returns `[]`; and for an info mapping containing
`approvers` but no `codeowners` key, the lookup fails (`KeyError`,
modelled `none`). -/
theorem C10_codeowners_accessor :
    (∀ info : Dict, dictContains info "approvers" = true →
      codeownersProp info = dictGet info "codeowners") ∧
    (∀ info : Dict, dictContains info "approvers" = false →
      codeownersProp info = some (.strList [])) ∧
    (∀ (prior : Dict) (file : Option String) (ch : ChangesPayload) (aw : List Reaction)
      (out : CEOutcome), dictContains prior "approvers" = false →
      getApproversCE prior file ch aw = some out →
      codeownersProp out.info = some (.strList [])) ∧
    (∀ info : Dict, dictContains info "approvers" = true →
      dictContains info "codeowners" = false → codeownersProp info = none) := by
  refine ⟨fun info ha => by simp [codeownersProp, ha],
    fun info ha => by simp [codeownersProp, ha], ?_, ?_⟩
  · intro prior file ch aw out hpr h
    have hc : dictContains out.info "approvers" = false :=
      (getApproversCE_contains_approvers prior file ch aw out h).trans hpr
    simp [codeownersProp, hc]
  · intro info ha hc
    simp only [codeownersProp, ha, if_true]
    exact dictGet_eq_none_of_contains_false _ _ hc

/-- C10 witness: an emulated refetch that stored the non-empty codeowner
set `{alice}` still makes the accessor return `[]` (no `approvers` key),
and an info with `approvers` but no `codeowners` key fails the lookup. -/
theorem C10_codeowners_accessor_wit :
    codeownersProp (tallyInfo [("iid", .int 5)]
      (determineResponsibleOwners [("*", {"alice"})] ⟨none⟩)
      [⟨"thumbsup", ⟨"alice", 7⟩⟩]) = some (.strList []) ∧
    codeownersProp [("approvers", .int 0)] = none :=
  ⟨(C10_codeowners_accessor.2.2.1 [("iid", .int 5)] (some "* alice") ⟨none⟩
      [⟨"thumbsup", ⟨"alice", 7⟩⟩]
      ⟨tallyInfo [("iid", .int 5)] (determineResponsibleOwners [("*", {"alice"})] ⟨none⟩)
        [⟨"thumbsup", ⟨"alice", 7⟩⟩], true, true⟩ (by decide)
      (getApproversCE_tally [("iid", .int 5)] (some "* alice") ⟨none⟩
        [⟨"thumbsup", ⟨"alice", 7⟩⟩] [("*", {"alice"})] (by decide) (by decide) (by decide))),
    C10_codeowners_accessor.2.2.2 [("approvers", .int 0)] (by decide) (by decide)⟩

/-! ## Claim C2 -/

/-- C2 counterexample: with `project_id = 1`, `iid = 2`, legacy `id = 3`
and host release `(9, 2, 1)` — below the `(9, 2, 2)` threshold — the
changes and award fetch URLs are still built from the iteration id `2`,
not from the legacy id `3` as the claim asserts for all endpoints. -/
theorem C2_changes_award_use_iid_cex :
    verGE (9, 2, 1) (9, 2, 2) = false ∧
    changesUrlFor ⟨1, 2, 3⟩ = "/projects/1/merge_requests/2/changes" ∧
    awardsUrlFor ⟨1, 2, 3⟩ = "/projects/1/merge_requests/2/award_emoji" ∧
    "/projects/1/merge_requests/2/changes" ≠ "/projects/1/merge_requests/3/changes" ∧
    "/projects/1/merge_requests/2/award_emoji" ≠
      "/projects/1/merge_requests/3/award_emoji" := by
  decide

/-- C2 (amended): below the `(9, 2, 2)` threshold only the native
approvals fetch and the approve action use the legacy numeric id, and at
or above the threshold they use the iteration id; the changes fetch and
the award fetch always use the iteration id, whatever the host
version. -/
theorem C2_endpoint_id_forms (ref : MRRef) (rel : Ver) :
    (verGE rel (9, 2, 2) = false →
      approverUrlFor ref rel = mrPath ref.project_id ref.id "/approvals" ∧
      approveUrlFor ref rel = mrPath ref.project_id ref.id "/approve") ∧
    (verGE rel (9, 2, 2) = true →
      approverUrlFor ref rel = mrPath ref.project_id ref.iid "/approvals" ∧
      approveUrlFor ref rel = mrPath ref.project_id ref.iid "/approve") ∧
    changesUrlFor ref = mrPath ref.project_id ref.iid "/changes" ∧
    awardsUrlFor ref = mrPath ref.project_id ref.iid "/award_emoji" := by
  refine ⟨fun hv => ⟨?_, ?_⟩, fun hv => ⟨?_, ?_⟩, rfl, rfl⟩ <;>
    simp [approverUrlFor, approveUrlFor, hv]

/-- C2 witness: the amended statement at `project_id = 1`, `iid = 2`,
`id = 3` and release `(9, 2, 1)`. -/
theorem C2_endpoint_id_forms_wit :
    approverUrlFor ⟨1, 2, 3⟩ (9, 2, 1) = mrPath 1 3 "/approvals" ∧
    approveUrlFor ⟨1, 2, 3⟩ (9, 2, 1) = mrPath 1 3 "/approve" ∧
    changesUrlFor ⟨1, 2, 3⟩ = mrPath 1 2 "/changes" ∧
    awardsUrlFor ⟨1, 2, 3⟩ = mrPath 1 2 "/award_emoji" :=
  ⟨((C2_endpoint_id_forms ⟨1, 2, 3⟩ (9, 2, 1)).1 (by decide)).1,
    ((C2_endpoint_id_forms ⟨1, 2, 3⟩ (9, 2, 1)).1 (by decide)).2,
    (C2_endpoint_id_forms ⟨1, 2, 3⟩ (9, 2, 1)).2.2.1,
    (C2_endpoint_id_forms ⟨1, 2, 3⟩ (9, 2, 1)).2.2.2⟩

/-! ## Claim C5 -/

/-- C5 counterexample: `fnmatch` does not stop `*` at `/`, so `*.md`
does match `a/readme.md`; and globs containing bracket metacharacters
need not match themselves, so literal equality does not imply a match:
the pattern `[a]` does not match the path `[a]`. -/
theorem C5_glob_semantics_cex :
    fnmatchStr "a/readme.md" "*.md" = true ∧ fnmatchStr "[a]" "[a]" = false := by
  decide

/-- C5 (amended): matching is reflexive on literal equality for globs
without the metacharacters `*`, `?`, `[`; the wildcard semantics is
Python `fnmatch`, where `*` matches any characters including `/`: so
`*.md` matches `readme.md` and also matches `a/readme.md` (no
single-level path restriction). -/
theorem C5_glob_semantics_amended :
    (∀ g : String, noMetaGlob g.data = true → fnmatchStr g g = true) ∧
    fnmatchStr "readme.md" "*.md" = true ∧
    fnmatchStr "a/readme.md" "*.md" = true := by
  refine ⟨?_, by decide, by decide⟩
  intro g hg
  unfold fnmatchStr
  exact fnmatchFuel_self g.data _ hg (by omega)

/-- C5 witness: self-match of the meta-free glob `src/app.py`. -/
theorem C5_glob_semantics_amended_wit :
    fnmatchStr "src/app.py" "src/app.py" = true :=
  C5_glob_semantics_amended.1 "src/app.py" (by decide)

/-! ## Claim C7 -/

/-- C7 counterexample: parsing the line `* @@alice@` stores the owner
token as `alice` — `strip('@')` removes every leading and trailing `@` —
whereas stripping exactly one leading `@` would store `@alice@`. -/
theorem C7_strip_one_at_cex :
    getCodeownersCE (some "* @@alice@") = some [("*", {"alice"})] ∧
    stripAt "@@alice@" = "alice" ∧
    ("alice" : String) ≠ "@alice@" := by
  decide

/-- C7 (amended): each owner token is normalized by stripping all
leading and all trailing `@` characters: extra edge `@`s (leading or
trailing) are removed as well, a token with no `@` at either end is
stored unchanged, and interior `@` characters are preserved (as in
`@@a@b@@ ↦ a@b`). -/
theorem C7_strip_all_at_amended :
    (∀ cs : List Char, stripAtL ('@' :: cs) = stripAtL cs) ∧
    (∀ cs : List Char, stripAtL (cs ++ ['@']) = stripAtL cs) ∧
    (∀ cs : List Char, cs.head? ≠ some '@' → cs.getLast? ≠ some '@' →
      stripAtL cs = cs) ∧
    stripAt "@@a@b@@" = "a@b" := by
  exact ⟨stripAtL_cons_at, stripAtL_append_at, stripAtL_of_clean_ends, by decide⟩

/-- C7 witness: the clean-ends case at the concrete token `a@b`. -/
theorem C7_strip_all_at_amended_wit :
    stripAtL ['a', '@', 'b'] = ['a', '@', 'b'] :=
  C7_strip_all_at_amended.2.2.1 ['a', '@', 'b'] (by decide) (by decide)

/-! ## Claim C8 -/

/-- C8 counterexample: the owner file `*.md` (a glob line with no owner
tokens) parses to a mapping in which the glob `*.md` is present with an
empty owner set — owner sets can be empty after insertion. -/
theorem C8_empty_owner_set_cex :
    getCodeownersCE (some "*.md") = some [("*.md", (∅ : Finset String))] := by
  decide

/-- C8 (amended): a significant line `g u1 ... un` updates the mapping
by get-or-create-then-union — the entry for `g` becomes the union of its
previous owner set (the empty set on first occurrence, so a line with no
owner tokens leaves an empty set) with the stripped tokens of the line —
and entries of every other glob are untouched (never overwritten); in
particular the same glob on two lines accumulates both owner sets. -/
theorem C8_accumulate_union_amended :
    (∀ (m : GlobMap) (line g : String) (users : List String),
      shlexSplit line = some (g :: users) →
      ∃ m' : GlobMap, processLine m line = some m' ∧
        globMapGet m' g =
          some (((globMapGet m g).getD ∅) ∪ (users.map stripAt).toFinset) ∧
        (∀ g' : String, g' ≠ g → globMapGet m' g' = globMapGet m g')) ∧
    getCodeownersCE (some "* alice\n* bob") = some [("*", {"bob", "alice"})] := by
  refine ⟨?_, by decide⟩
  intro m line g users h
  refine ⟨_, by unfold processLine; rw [h], ?_, ?_⟩
  · exact globMapGet_fold_users g users _ _ (globMapGet_setdefault_self m g)
  · intro g' hne
    rw [globMapGet_fold_users_ne g g' hne users _, globMapGet_setdefault_ne m g g' hne]

/-- C8 witness: the line `* bob` over a mapping that already has owners
for `*` and for `*.go`: the `*` entry gains `bob`, the `*.go` entry is
untouched. -/
theorem C8_accumulate_union_amended_wit :
    ∃ m' : GlobMap, processLine [("*", {"alice"}), ("*.go", {"carol"})] "* bob" = some m' ∧
      globMapGet m' "*" =
        some (((globMapGet [("*", {"alice"}), ("*.go", {"carol"})] "*").getD ∅) ∪
          (["bob"].map stripAt).toFinset) ∧
      (∀ g' : String, g' ≠ "*" →
        globMapGet m' g' = globMapGet [("*", {"alice"}), ("*.go", {"carol"})] g') :=
  C8_accumulate_union_amended.1 [("*", {"alice"}), ("*.go", {"carol"})] "* bob" "*" ["bob"]
    (by decide)

end Marge
